import Mathlib

/-!
Shallow embedding of `src/glimpse/data_loading/generate_abstractive_candidates.py`.

The script loads a CSV dataset, generates candidate summaries batch by batch with a
seq2seq model, explodes the per-row candidate lists into one row per candidate, and
writes the result to a CSV file.  The embedding below keeps the source's names where
possible.  The external model (`model.generate` composed with the tokenizer) is an
abstract function `g : String → List (List Int)` turning one text into its list of
generated token rows; `decode : List Int → String` abstracts `tokenizer.decode`.
Machine-level concerns (CUDA, tensor memory) are irrelevant to the claims: only row
and element counts, ordering, and error behaviour matter, and those are modelled
exactly.
-/

namespace Glimpse

/-- Python `bool(s)` on a string, as applied by `argparse` when a flag is declared
with `type=bool` (lines 54 and 56 of the source): `False` exactly for the empty
string, `True` for every other string. -/
def argparseBool (s : String) : Bool :=
  s != ""

/-- Value of a decimal digit string, `none` if the string is empty or has a
non-digit character. -/
def digitsVal (cs : List Char) : Option Nat :=
  if cs ≠ [] ∧ cs.all Char.isDigit then
    some (cs.foldl (fun a c => 10 * a + (c.toNat - 48)) 0)
  else
    none

/-- Surrounding whitespace stripped from a character list, as Python `int` does
before parsing. -/
def stripWs (cs : List Char) : List Char :=
  ((cs.dropWhile Char.isWhitespace).reverse.dropWhile Char.isWhitespace).reverse

/-- Python `int(s)` on a string: optional surrounding whitespace, an optional sign,
then decimal digits; raises `ValueError` (here: `none`) otherwise.  Underscore digit
grouping and non-ASCII digits are accepted by Python but are not modelled; no claim
involves such inputs. -/
def pyInt (s : String) : Option Int :=
  match stripWs s.data with
  | '+' :: cs => (digitsVal cs).map Int.ofNat
  | '-' :: cs => (digitsVal cs).map (fun n => -(n : Int))
  | cs => (digitsVal cs).map Int.ofNat

/-- A Python scalar appearing in the generation configs: numeric literals (ints and
floats, both modelled as rationals) and booleans. -/
inductive PyVal where
  | num (q : ℚ)
  | bool (b : Bool)
deriving DecidableEq

/-- A Python dict is modelled as an association list; on duplicate keys the later
entry wins, so lookups read the last matching entry (`dictGet`). -/
abbrev PyDict := List (String × PyVal)

/-- Lookup in a modelled Python dict: the value of the last entry with the given
key, mirroring that later entries of a dict merge override earlier ones. -/
def dictGet (d : PyDict) (k : String) : Option PyVal :=
  (d.filterMap (fun p => if p.1 = k then some p.2 else none)).getLast?

/-- The `"top_p_sampling"` preset of `GENERATION_CONFIGS` before the defaults loop
(source lines 14-23). -/
def top_p_sampling_preset : PyDict :=
  [("max_new_tokens", .num 200),
   ("do_sample", .bool true),
   ("top_p", .num 0.95),
   ("temperature", .num 1.0),
   ("num_return_sequences", .num 8),
   ("num_beams", .num 1)]

/-- The `sampling_topp_*` presets of `GENERATION_CONFIGS` before the defaults loop
(source lines 25-33): the same dict for each of the four `topp` keys.  (`topp`
itself is unused in the dict body.) -/
def sampling_topp_preset : PyDict :=
  [("max_new_tokens", .num 200),
   ("do_sample", .bool true),
   ("num_return_sequences", .num 8),
   ("top_p", .num 0.95)]

/-- The loop at source lines 37-43 rewraps every config as
`{"min_length": 0, "early_stopping": True, **value}`: shared defaults first, the
preset's own entries after (overriding on key clashes). -/
def withDefaults (d : PyDict) : PyDict :=
  [("min_length", .num 0), ("early_stopping", .bool true)] ++ d

/-- `GENERATION_CONFIGS` after the defaults loop: registry of named decoding
configurations.  The comprehension keys are `f"sampling_topp_{str(topp).replace('.', '')}"`
for `topp` in `[0.5, 0.8, 0.95, 0.99]`. -/
def GENERATION_CONFIGS : List (String × PyDict) :=
  [("top_p_sampling", withDefaults top_p_sampling_preset),
   ("sampling_topp_05", withDefaults sampling_topp_preset),
   ("sampling_topp_08", withDefaults sampling_topp_preset),
   ("sampling_topp_095", withDefaults sampling_topp_preset),
   ("sampling_topp_099", withDefaults sampling_topp_preset)]

/-- `GENERATION_CONFIGS[key]` for a key known to be present (argparse restricts
`--decoding_config` to the registry's keys). -/
def configFor (key : String) : PyDict :=
  (GENERATION_CONFIGS.lookup key).getD []

/-- `sanitize_model_name` (source lines 174-180): `model_name.replace("/", "_")`.
For a single-character pattern and replacement, Python `str.replace` is exactly a
character-wise map. -/
def sanitize_model_name (model_name : String) : String :=
  String.mk (model_name.data.map (fun c => if c = '/' then '_' else c))

/-- `prepare_dataset` (source lines 68-82).  `fs` abstracts the filesystem seen by
`pd.read_csv`: the rows of the CSV at a path, or `none` when reading fails.  The
whole filename computation sits inside the `try`, so `int(dataset_name)` raising
`ValueError` on a non-integer name is caught by the bare `except` exactly like a
read failure, and becomes `ValueError(f"Unknown dataset {dataset_name}")`.  Note the
filename interpolates `dataset_name` itself, not the parsed integer. -/
def prepare_dataset (fs : String → Option (List String)) (dataset_path : String)
    (dataset_name : String) : Except String (List String) :=
  match pyInt dataset_name with
  | none => .error ("Unknown dataset " ++ dataset_name)
  | some y =>
    match fs (dataset_path ++ "/" ++ (if 2017 ≤ y ∧ y < 2021 then
        "all_reviews_" ++ dataset_name ++ ".csv"
      else
        dataset_name ++ ".csv")) with
    | some rows => .ok rows
    | none => .error ("Unknown dataset " ++ dataset_name)

/-- Split a list into consecutive chunks of size `b` (the last chunk possibly
shorter); empty for `b = 0`.  This is the batch order of
`DataLoader(dataset, batch_size=b, shuffle=False)`. -/
def chunked (b : Nat) : List α → List (List α)
  | [] => []
  | x :: xs =>
    if b = 0 then []
    else (x :: xs).take b :: chunked b (xs.drop (b - 1))
termination_by l => l.length
decreasing_by simp [List.length_drop]; omega

/-- The batches produced by
`DataLoader(dataset, batch_size, shuffle=False, drop_last=not use_padding)`
(source line 100): with `drop_last` the loader yields only the first
`⌊n/b⌋` full batches, i.e. it batches the first `b * (n / b)` examples. -/
def batches (batch_size : Nat) (use_padding : Bool) (dataset : List α) : List (List α) :=
  if use_padding then
    chunked batch_size dataset
  else
    chunked batch_size (dataset.take (batch_size * (dataset.length / batch_size)))

/-- The output tensor of `model.generate` on one batch of texts: a 2-D tensor as a
list of token rows, `g` giving the rows generated for a single text
(`num_return_sequences` rows, in batch order). -/
def generateBatch (g : String → List (List Int)) (texts : List String) : List (List Int) :=
  (texts.map g).flatten

/-- `outputs.numel()`: total number of elements of the tensor. -/
def numel (t : List (List Int)) : Nat :=
  (t.map List.length).sum

/-- `outputs.shape[-1]`: the length of a row.  Tensors are rectangular, so for the
tensors that actually arise this is the length of the first row. -/
def lastDim (t : List (List Int)) : Nat :=
  (t.headD []).length

/-- `pad_size` (source line 141): number of elements needed to round `numel` up to
the next multiple of `target_size = batch_size * outputs.shape[-1]`.  Only
meaningful when the target is non-zero (the source divides by it). -/
def padSize (batch_size : Nat) (t : List (List Int)) : Nat :=
  let target := batch_size * lastDim t
  (target - numel t % target) % target

/-- Source lines 145-148: when `use_padding` and `pad_size != 0`, pad the tensor
with `pad_size // outputs.shape[-1]` extra rows of zeros
(`torch.nn.functional.pad(outputs, (0, 0, 0, pad_size // outputs.shape[-1]))`). -/
def padOutputs (batch_size : Nat) (use_padding : Bool) (t : List (List Int)) :
    List (List Int) :=
  if use_padding ∧ padSize batch_size t ≠ 0 then
    t ++ List.replicate (padSize batch_size t / lastDim t) (List.replicate (lastDim t) 0)
  else
    t

/-- Source lines 151-166: `outputs.reshape(batch_size, -1, outputs.shape[-1])`
followed by the decode loop.  `reshape` succeeds exactly when the element count is
divisible by `batch_size * outputs.shape[-1]`; the inferred middle dimension is then
`m = numel / (batch_size * lastDim)` and slot `b` of the reshaped tensor holds rows
`b*m .. (b+1)*m - 1` of the flat element sequence.  On failure the source raises
`ValueError` with the attempted size and dimensions (after printing the underlying
error); there is no retry and no partial output. -/
def reshapeDecode (decode : List Int → String) (batch_size : Nat)
    (t : List (List Int)) : Except String (List (List String)) :=
  if 0 < batch_size * lastDim t ∧ numel t % (batch_size * lastDim t) = 0 then
    let m := numel t / (batch_size * lastDim t)
    .ok ((List.range batch_size).map
      (fun b => (((chunked (lastDim t) t.flatten).drop (b * m)).take m).map decode))
  else
    .error ("Cannot reshape tensor of size " ++ toString (numel t) ++
      " into shape (" ++ toString batch_size ++ ", -1, " ++ toString (lastDim t) ++ ").")

/-- One iteration of the batch loop of `evaluate_summarizer` (source lines 107-166):
generate, compute `pad_size` (a `ZeroDivisionError` when
`batch_size * outputs.shape[-1] == 0`, since the source takes `% target_size`),
pad if requested, reshape and decode.  Returns the `batch_size` candidate lists
appended to `summaries` for this batch. -/
def processBatch (g : String → List (List Int)) (decode : List Int → String)
    (batch_size : Nat) (use_padding : Bool) (texts : List String) :
    Except String (List (List String)) :=
  let t := generateBatch g texts
  if batch_size * lastDim t = 0 then
    .error "ZeroDivisionError: integer division or modulo by zero"
  else
    reshapeDecode decode batch_size (padOutputs batch_size use_padding t)

/-- The whole batch loop: processes batches in order, appending each batch's
candidate lists to the running `summaries` list; the first error aborts the loop.
The first component is the trace of batches actually sent to `model.generate`
(in order), surviving an error. -/
def runBatches (g : String → List (List Int)) (decode : List Int → String)
    (batch_size : Nat) (use_padding : Bool) :
    List (List String) → List (List String) × Except String (List (List String))
  | [] => ([], .ok [])
  | ts :: rest =>
    match processBatch g decode batch_size use_padding ts with
    | .error e => ([ts], .error e)
    | .ok ss =>
      let r := runBatches g decode batch_size use_padding rest
      (ts :: r.1,
       match r.2 with
       | .error e => .error e
       | .ok more => .ok (ss ++ more))

/-- `dataset.map(lambda example: {"summary": summaries.pop(0)})` (source line 169):
rows are visited in dataset order, each consuming the front of `summaries`;
`pop(0)` on an exhausted list raises `IndexError` and aborts the map.  The result
pairs each text with its assigned candidate list. -/
def popAssign : List String → List (List String) →
    Except String (List (String × List String))
  | [], _ => .ok []
  | _ :: _, [] => .error "IndexError: pop from empty list"
  | text :: ts, s :: ss =>
    match popAssign ts ss with
    | .error e => .error e
    | .ok rest => .ok ((text, s) :: rest)

/-- `evaluate_summarizer` (source lines 85-171) over the abstract model `g` and
decoder `decode`.  Returns the trace of batches sent to inference together with the
dataset extended by the `summary` column (or the exception that aborted the run). -/
def evaluate_summarizer (g : String → List (List Int)) (decode : List Int → String)
    (dataset : List String) (batch_size : Nat) (use_padding : Bool) :
    List (List String) × Except String (List (String × List String)) :=
  let bs := batches batch_size use_padding dataset
  let r := runBatches g decode batch_size use_padding bs
  (r.1,
   match r.2 with
   | .error e => .error e
   | .ok summaries => popAssign dataset summaries)

/-- `df_dataset.explode('summary')` followed by `reset_index()` (source lines
220-221), starting at index `i`.  A row is `(index, text, summary)`.  Per pandas
semantics, a row whose list has `k ≥ 1` elements becomes `k` rows sharing the
original row's index, in list order; a row with an empty list-like becomes a single
row with a missing value (`none`) for the exploded column. -/
def explodeFrom (i : Nat) : List (String × List String) → List (Nat × String × Option String)
  | [] => []
  | row :: rest =>
    (match row.2 with
     | [] => [(i, row.1, none)]
     | cs => cs.map (fun c => (i, row.1, some c))) ++ explodeFrom (i + 1) rest

/-- `df_dataset.groupby(['index']).cumcount()` (source line 223) fused with the
column assignment: each row is tagged with the number of earlier rows carrying the
same `index` value.  `seen` is the running per-key count. -/
def cumcountGo (seen : Nat → Nat) :
    List (Nat × String × Option String) → List (Nat × String × Option String × Nat)
  | [] => []
  | (k, t, c) :: rest =>
    (k, t, c, seen k) :: cumcountGo (fun k2 => if k2 = k then seen k + 1 else seen k2) rest

/-- The explode step of `main` (source lines 219-223): explode the `summary` lists,
reset the index, and add the `id_candidate` column as the grouped running count.
A result row is `(index, text, summary, id_candidate)`. -/
def explodeOutput (df : List (String × List String)) :
    List (Nat × String × Option String × Nat) :=
  cumcountGo (fun _ => 0) (explodeFrom 0 df)

/-- Reference shape for the explode lemmas: the candidates of one exploded row,
tagged with index `j` and consecutive `id_candidate` values starting at `base`. -/
def blockIds (j : Nat) (t : String) (base : Nat) :
    List String → List (Nat × String × Option String × Nat)
  | [] => []
  | c :: cs => (j, t, some c, base) :: blockIds j t (base + 1) cs

/-- Reference shape for the explode lemmas: block `j` of the output with
`id_candidate` values assigned positionally within the block. -/
def withIds (j : Nat) : List (String × List String) → List (Nat × String × Option String × Nat)
  | [] => []
  | row :: rest =>
    (match row.2 with
     | [] => [(j, row.1, none, 0)]
     | cs => blockIds j row.1 0 cs) ++ withIds (j + 1) rest

/-- `main` (source lines 183-244) from dataset loading to the exploded dataframe:
load and optionally truncate the dataset, run the summarizer, explode.  Model
loading, device placement and CSV serialization carry no claim-relevant logic.  The
first component is the trace of batches sent to `model.generate`: empty when
`prepare_dataset` raises, since the `ValueError` aborts `main` before
`evaluate_summarizer` is called. -/
def mainPipeline (g : String → List (List Int)) (decode : List Int → String)
    (fs : String → Option (List String)) (dataset_path dataset_name : String)
    (batch_size : Nat) (use_padding : Bool) (limit : Option Nat) :
    List (List String) × Except String (List (Nat × String × Option String × Nat)) :=
  match prepare_dataset fs dataset_path dataset_name with
  | .error e => ([], .error e)
  | .ok rows =>
    let rows := match limit with
      | some lim => rows.take (min lim rows.length)
      | none => rows
    let r := evaluate_summarizer g decode rows batch_size use_padding
    (r.1,
     match r.2 with
     | .error e => .error e
     | .ok withSummaries => .ok (explodeOutput withSummaries))

/-- Concrete single-candidate model used by the witnesses: one token row per text. -/
def gW : String → List (List Int) :=
  fun _ => [[7]]

/-- Concrete decoder used by the witnesses. -/
def decodeW : List Int → String :=
  fun _ => "x"

/-- Concrete filesystem holding exactly `data/reviews.csv`. -/
def fsReviews : String → Option (List String) :=
  fun p => if p = "data/reviews.csv" then some ["text"] else none

/-- Concrete filesystem with no readable file. -/
def fsNone : String → Option (List String) :=
  fun _ => none

theorem chunked_nil (b : Nat) : chunked b ([] : List α) = [] := by
  simp [chunked]

theorem chunked_cons (hb : b ≠ 0) (x : α) (xs : List α) :
    chunked b (x :: xs) = (x :: xs).take b :: chunked b ((x :: xs).drop b) := by
  rw [chunked, if_neg hb]
  obtain ⟨k, rfl⟩ : ∃ k, b = k + 1 := ⟨b - 1, by omega⟩
  rw [List.drop_succ_cons]
  simp

theorem chunked_eq (hb : b ≠ 0) {l : List α} (hl : l ≠ []) :
    chunked b l = l.take b :: chunked b (l.drop b) := by
  cases l with
  | nil => exact absurd rfl hl
  | cons x xs => exact chunked_cons hb x xs

theorem chunked_flatten (hb : b ≠ 0) : (l : List α) → (chunked b l).flatten = l
  | [] => by simp [chunked]
  | x :: xs => by
    rw [chunked_cons hb, List.flatten_cons, chunked_flatten hb ((x :: xs).drop b)]
    exact List.take_append_drop b (x :: xs)
termination_by l => l.length
decreasing_by simp [List.length_drop]; omega

theorem chunked_full_mem (hb : b ≠ 0) :
    (l : List α) → b ∣ l.length → ∀ c ∈ chunked b l, c.length = b
  | [], _, c, hc => by simp [chunked] at hc
  | x :: xs, hdvd, c, hc => by
    rw [chunked_cons hb] at hc
    have hble : b ≤ (x :: xs).length :=
      Nat.le_of_dvd (by simp) hdvd
    rcases List.mem_cons.1 hc with h | h
    · subst h
      simp only [List.length_cons] at hble
      simp [List.length_take]
      omega
    · refine chunked_full_mem hb ((x :: xs).drop b) ?_ c h
      rw [List.length_drop]
      exact (Nat.dvd_sub' hdvd dvd_rfl)
termination_by l => l.length
decreasing_by simp [List.length_drop]; omega

theorem chunked_getLast (hb : b ≠ 0) :
    (l : List α) → l.length % b ≠ 0 →
      (chunked b l).getLast? = some (l.drop (b * (l.length / b)))
  | [], h => by simp at h
  | x :: xs, h => by
    rw [chunked_cons hb]
    by_cases hle : (x :: xs).length ≤ b
    · have hlt : (x :: xs).length < b := by
        rcases Nat.lt_or_eq_of_le hle with h' | h'
        · exact h'
        · exact absurd (h' ▸ Nat.mod_self b) h
      have hdrop : (x :: xs).drop b = [] := List.drop_eq_nil_of_le hle
      have hdiv : (x :: xs).length / b = 0 := Nat.div_eq_of_lt hlt
      rw [hdrop, chunked_nil, hdiv, Nat.mul_zero, List.drop_zero,
        List.take_of_length_le hle]
      rfl
    · push_neg at hle
      have hne : (x :: xs).drop b ≠ [] := by
        rw [← List.length_pos_iff_ne_nil, List.length_drop]
        omega
      have hmod : ((x :: xs).drop b).length % b ≠ 0 := by
        rw [List.length_drop]
        intro hcon
        apply h
        have : (x :: xs).length = ((x :: xs).length - b) + b := by omega
        rw [this, Nat.add_mod_right]
        exact hcon
      have hrest := chunked_getLast hb ((x :: xs).drop b) hmod
      have hrestne : chunked b ((x :: xs).drop b) ≠ [] := by
        rw [chunked_eq hb hne]
        simp
      rw [show ((x :: xs).take b :: chunked b ((x :: xs).drop b)) =
            [(x :: xs).take b] ++ chunked b ((x :: xs).drop b) from rfl,
        List.getLast?_append_of_ne_nil _ hrestne, hrest, List.length_drop,
        List.drop_drop]
      have h2 : (x :: xs).length / b = ((x :: xs).length - b) / b + 1 := by
        conv_lhs => rw [show (x :: xs).length = ((x :: xs).length - b) + b by omega]
        rw [Nat.add_div_right _ (Nat.pos_of_ne_zero hb)]
      rw [h2, Nat.mul_add, Nat.mul_one, Nat.add_comm]
termination_by l => l.length
decreasing_by simp [List.length_drop]; omega

theorem generateBatch_length {g : String → List (List Int)} {r : Nat}
    (hr : ∀ t, (g t).length = r) (ts : List String) :
    (generateBatch g ts).length = ts.length * r := by
  rw [generateBatch, List.length_flatten, List.map_map]
  have : ts.map (List.length ∘ g) = List.replicate ts.length r := by
    rw [List.eq_replicate_iff]
    refine ⟨by simp, ?_⟩
    intro n hn
    rcases List.mem_map.1 hn with ⟨t, _, rfl⟩
    exact hr t
  rw [this, List.sum_replicate, smul_eq_mul]

theorem generateBatch_rows {g : String → List (List Int)} {L : Nat}
    (hL : ∀ t, ∀ row ∈ g t, row.length = L) (ts : List String) :
    ∀ row ∈ generateBatch g ts, row.length = L := by
  intro row hrow
  rcases List.mem_flatten.1 hrow with ⟨s, hs, hrs⟩
  rcases List.mem_map.1 hs with ⟨t, _, rfl⟩
  exact hL t row hrs

theorem numel_rect {t : List (List Int)} {L : Nat}
    (h : ∀ row ∈ t, row.length = L) : numel t = t.length * L := by
  rw [numel]
  have : t.map List.length = List.replicate t.length L := by
    rw [List.eq_replicate_iff]
    refine ⟨by simp, ?_⟩
    intro n hn
    rcases List.mem_map.1 hn with ⟨row, hrow, rfl⟩
    exact h row hrow
  rw [this, List.sum_replicate, smul_eq_mul]

theorem lastDim_rect {t : List (List Int)} {L : Nat}
    (hne : t ≠ []) (h : ∀ row ∈ t, row.length = L) : lastDim t = L := by
  cases t with
  | nil => exact absurd rfl hne
  | cons row rest => exact h row (by simp)

theorem lastDim_append {t u : List (List Int)} (hne : t ≠ []) :
    lastDim (t ++ u) = lastDim t := by
  cases t with
  | nil => exact absurd rfl hne
  | cons row rest => rfl

theorem numel_append (t u : List (List Int)) :
    numel (t ++ u) = numel t + numel u := by
  simp [numel]

theorem numel_zero_rows (k L : Nat) :
    numel (List.replicate k (List.replicate L (0 : Int))) = k * L := by
  have : (List.replicate k (List.replicate L (0 : Int))).map List.length =
      List.replicate k L := by
    rw [List.eq_replicate_iff]
    refine ⟨by simp, ?_⟩
    intro n hn
    rcases List.mem_map.1 hn with ⟨row, hrow, rfl⟩
    rw [List.eq_of_mem_replicate hrow, List.length_replicate]
  rw [numel, this, List.sum_replicate, smul_eq_mul]

theorem chunked_flatten_rect {t : List (List Int)} {L : Nat} (hL0 : L ≠ 0)
    (h : ∀ row ∈ t, row.length = L) : chunked L t.flatten = t := by
  induction t with
  | nil => simp [chunked]
  | cons row rest ih =>
    have hrow : row.length = L := h row (by simp)
    have hne : row ++ rest.flatten ≠ [] := by
      have : row ≠ [] := by
        intro hcon
        rw [hcon] at hrow
        exact hL0 hrow.symm
      cases row with
      | nil => exact absurd rfl this
      | cons a as => simp
    rw [List.flatten_cons, chunked_eq hL0 hne, ← hrow, List.take_left,
      List.drop_left, hrow, ih (fun r hr => h r (by simp [hr]))]

theorem flatten_block {ls : List (List (List Int))} {r : Nat}
    (hr : ∀ x ∈ ls, x.length = r) :
    ∀ (i : Nat) (hi : i < ls.length),
      ((ls.flatten).drop (i * r)).take r = ls.get ⟨i, hi⟩ := by
  induction ls with
  | nil => intro i hi; simp at hi
  | cons x rest ih =>
    intro i hi
    cases i with
    | zero =>
      have hx : x.length = r := hr x (by simp)
      rw [Nat.zero_mul, List.drop_zero, List.flatten_cons, ← hx, List.take_left]
      rfl
    | succ j =>
      have hx : x.length = r := hr x (by simp)
      have : (j + 1) * r = r + j * r := by ring
      rw [this, List.flatten_cons, ← List.drop_drop, ← hx, List.drop_left, hx,
        ih (fun y hy => hr y (by simp [hy])) j (by simpa using hi)]
      rfl

theorem processBatch_full {g : String → List (List Int)} {decode : List Int → String}
    {b r L : Nat} {up : Bool} {ts : List String}
    (hts : ts.length = b) (hb : 0 < b) (hr : ∀ t, (g t).length = r)
    (hL : ∀ t, ∀ row ∈ g t, row.length = L) (hr0 : 0 < r) (hL0 : 0 < L) :
    processBatch g decode b up ts = .ok (ts.map (fun t => (g t).map decode)) := by
  have htlen : (generateBatch g ts).length = b * r := by
    rw [generateBatch_length hr, hts, Nat.mul_comm]
  have htrows := generateBatch_rows hL ts
  have htne : generateBatch g ts ≠ [] := by
    rw [← List.length_pos_iff_ne_nil, htlen]
    positivity
  have hlast : lastDim (generateBatch g ts) = L := lastDim_rect htne htrows
  have hnumel : numel (generateBatch g ts) = b * r * L := by
    rw [numel_rect htrows, htlen]
  have htarget : b * L ≠ 0 := by positivity
  have hmod : numel (generateBatch g ts) % (b * L) = 0 := by
    rw [hnumel, show b * r * L = b * L * r by ring, Nat.mul_mod_right]
  have hpad : padSize b (generateBatch g ts) = 0 := by
    rw [padSize, hlast]
    simp only [hmod, Nat.sub_zero, Nat.mod_self]
  have hpadded : padOutputs b up (generateBatch g ts) = generateBatch g ts := by
    rw [padOutputs, if_neg]
    simp [hpad]
  rw [processBatch, if_neg (by rw [hlast]; exact htarget), hpadded, reshapeDecode,
    if_pos ⟨by rw [hlast]; positivity, by rw [hlast]; exact hmod⟩]
  refine congrArg Except.ok ?_
  have hm : numel (generateBatch g ts) / (b * lastDim (generateBatch g ts)) = r := by
    rw [hlast, hnumel, show b * r * L = b * L * r by ring,
      Nat.mul_div_cancel_left _ (Nat.pos_of_ne_zero htarget)]
  rw [hm, hlast, chunked_flatten_rect (by omega) htrows]
  refine List.ext_getElem (by simp [hts]) ?_
  intro i h1 h2
  have hi : i < ts.length := by simpa using h2
  have hib : i < (ts.map g).length := by simpa using hi
  have hblock := @flatten_block (ts.map g) r
    (fun x hx => by rcases List.mem_map.1 hx with ⟨t, _, rfl⟩; exact hr t) i hib
  simp only [List.getElem_map, List.getElem_range]
  rw [show (generateBatch g ts) = (ts.map g).flatten from rfl, hblock]
  simp [List.get_eq_getElem]

theorem runBatches_ok {g : String → List (List Int)} {decode : List Int → String}
    {b : Nat} {up : Bool} {f : String → List String} :
    ∀ {bs : List (List String)},
      (∀ ts ∈ bs, processBatch g decode b up ts = .ok (ts.map f)) →
      runBatches g decode b up bs = (bs, .ok (bs.flatten.map f))
  | [], _ => by simp [runBatches]
  | ts :: rest, h => by
    rw [runBatches, h ts (by simp),
      runBatches_ok (fun ts' h' => h ts' (by simp [h']))]
    simp

theorem popAssign_map (f : String → List String) :
    ∀ rows : List String, popAssign rows (rows.map f) =
      .ok (rows.map (fun t => (t, f t)))
  | [] => by simp [popAssign]
  | t :: ts => by
    rw [List.map_cons, popAssign, popAssign_map f ts]
    simp

theorem popAssign_short :
    ∀ (rows : List String) (ss : List (List String)), ss.length < rows.length →
      popAssign rows ss = .error "IndexError: pop from empty list"
  | [], ss, h => by simp at h
  | t :: ts, [], _ => rfl
  | t :: ts, s :: ss, h => by
    rw [popAssign, popAssign_short ts ss (by simpa using h)]

theorem batches_of_dvd {b : Nat} {up : Bool} {ds : List String}
    (hdvd : b ∣ ds.length) : batches b up ds = chunked b ds := by
  cases up with
  | true => rw [batches, if_pos rfl]
  | false =>
    rw [batches, if_neg (by simp), Nat.mul_div_cancel' hdvd, List.take_length]

theorem processBatch_padded {g : String → List (List Int)} {decode : List Int → String}
    {b r L : Nat} {ts : List String}
    (hb : 0 < b) (hr : ∀ t, (g t).length = r)
    (hL : ∀ t, ∀ row ∈ g t, row.length = L) (hr0 : 0 < r) (hL0 : 0 < L)
    (hne : ts ≠ []) :
    (∃ k, padOutputs b true (generateBatch g ts) =
        generateBatch g ts ++ List.replicate k (List.replicate L (0 : Int))) ∧
    numel (padOutputs b true (generateBatch g ts)) % (b * L) = 0 ∧
    numel (generateBatch g ts) ≤ numel (padOutputs b true (generateBatch g ts)) ∧
    numel (padOutputs b true (generateBatch g ts)) < numel (generateBatch g ts) + b * L ∧
    ∃ out, processBatch g decode b true ts = .ok out ∧ out.length = b := by
  have hs : 0 < ts.length := List.length_pos_of_ne_nil hne
  have htlen : (generateBatch g ts).length = ts.length * r := generateBatch_length hr ts
  have htrows := generateBatch_rows hL ts
  have htne : generateBatch g ts ≠ [] := by
    rw [← List.length_pos_iff_ne_nil, htlen]
    positivity
  have hlast : lastDim (generateBatch g ts) = L := lastDim_rect htne htrows
  have hm0 : 0 < b * L := by positivity
  have hq : numel (generateBatch g ts) % (b * L) < b * L :=
    Nat.mod_lt _ hm0
  have hqL : L ∣ numel (generateBatch g ts) % (b * L) := by
    rw [numel_rect htrows, htlen, Nat.mul_mod_mul_right]
    exact Dvd.intro_left _ rfl
  have hpadsize : padSize b (generateBatch g ts) =
      (b * L - numel (generateBatch g ts) % (b * L)) % (b * L) := by
    rw [padSize, hlast]
  by_cases hz : numel (generateBatch g ts) % (b * L) = 0
  · have hpad0 : padSize b (generateBatch g ts) = 0 := by
      rw [hpadsize, hz, Nat.sub_zero, Nat.mod_self]
    have hpo : padOutputs b true (generateBatch g ts) = generateBatch g ts := by
      rw [padOutputs, if_neg]
      simp [hpad0]
    refine ⟨⟨0, by simp [hpo]⟩, by rw [hpo]; exact hz, le_of_eq (by rw [hpo]),
      by rw [hpo]; omega, ?_⟩
    rw [processBatch, if_neg (by rw [hlast]; omega), hpo, reshapeDecode,
      if_pos ⟨by rw [hlast]; exact hm0, by rw [hlast]; exact hz⟩]
    exact ⟨_, rfl, by simp⟩
  · have hlt : b * L - numel (generateBatch g ts) % (b * L) < b * L := by omega
    have hpadval : padSize b (generateBatch g ts) =
        b * L - numel (generateBatch g ts) % (b * L) := by
      rw [hpadsize, Nat.mod_eq_of_lt hlt]
    have hpadne : padSize b (generateBatch g ts) ≠ 0 := by
      rw [hpadval]
      omega
    have hpo : padOutputs b true (generateBatch g ts) =
        generateBatch g ts ++
          List.replicate (padSize b (generateBatch g ts) / L)
            (List.replicate L 0) := by
      rw [padOutputs, if_pos ⟨rfl, hpadne⟩, hlast]
    have hdvd : L ∣ padSize b (generateBatch g ts) := by
      rw [hpadval]
      exact Nat.dvd_sub' (dvd_mul_left L b) hqL
    have hnum2 : numel (padOutputs b true (generateBatch g ts)) =
        numel (generateBatch g ts) + padSize b (generateBatch g ts) := by
      rw [hpo, numel_append, numel_zero_rows, Nat.div_mul_cancel hdvd]
    have hdm := Nat.div_add_mod (numel (generateBatch g ts)) (b * L)
    have hmod2 : numel (padOutputs b true (generateBatch g ts)) % (b * L) = 0 := by
      have : numel (padOutputs b true (generateBatch g ts)) =
          b * L * (numel (generateBatch g ts) / (b * L)) + b * L := by
        rw [hnum2, hpadval]
        omega
      rw [this, ← Nat.mul_succ, Nat.mul_mod_right]
    refine ⟨⟨_, hpo⟩, hmod2, by rw [hnum2]; omega, by rw [hnum2, hpadval]; omega, ?_⟩
    have hlast2 : lastDim (padOutputs b true (generateBatch g ts)) = L := by
      rw [hpo, lastDim_append htne, hlast]
    rw [processBatch, if_neg (by rw [hlast]; omega), reshapeDecode,
      if_pos ⟨by rw [hlast2]; exact hm0, by rw [hlast2]; exact hmod2⟩]
    exact ⟨_, rfl, by simp⟩

theorem blockIds_length (j : Nat) (t : String) :
    ∀ (base : Nat) (cs : List String), (blockIds j t base cs).length = cs.length
  | _, [] => rfl
  | base, c :: cs => by
    rw [blockIds, List.length_cons, blockIds_length j t (base + 1) cs,
      List.length_cons]

theorem blockIds_ids (j : Nat) (t : String) :
    ∀ (base : Nat) (cs : List String),
      (blockIds j t base cs).map (fun row => row.2.2.2) = List.range' base cs.length
  | _, [] => rfl
  | base, c :: cs => by
    rw [blockIds, List.map_cons, blockIds_ids j t (base + 1) cs]
    rfl

theorem blockIds_summaries (j : Nat) (t : String) :
    ∀ (base : Nat) (cs : List String),
      (blockIds j t base cs).map (fun row => row.2.2.1) = cs.map some
  | _, [] => rfl
  | base, c :: cs => by
    rw [blockIds, List.map_cons, blockIds_summaries j t (base + 1) cs, List.map_cons]

theorem blockIds_keys (j : Nat) (t : String) :
    ∀ (base : Nat) (cs : List String), ∀ row ∈ blockIds j t base cs, row.1 = j
  | _, [], row, hrow => by simp [blockIds] at hrow
  | base, c :: cs, row, hrow => by
    rw [blockIds, List.mem_cons] at hrow
    rcases hrow with h | h
    · rw [h]
    · exact blockIds_keys j t (base + 1) cs row h

theorem cumcount_block (j : Nat) (t : String) (tail : List (Nat × String × Option String)) :
    ∀ (cs : List String) (seen : Nat → Nat),
      cumcountGo seen (cs.map (fun c => (j, t, some c)) ++ tail) =
        blockIds j t (seen j) cs ++
          cumcountGo (fun k2 => if k2 = j then seen j + cs.length else seen k2) tail := by
  intro cs
  induction cs with
  | nil =>
    intro seen
    have hfun : (fun k2 => if k2 = j then seen j + ([] : List String).length else seen k2) =
        seen := by
      funext k2
      by_cases h : k2 = j
      · subst h; simp
      · simp [h]
    rw [hfun]
    rfl
  | cons c cs ih =>
    intro seen
    simp only [List.map_cons, List.cons_append, cumcountGo, blockIds, List.append_eq]
    rw [ih]
    simp only [eq_self_iff_true, if_true]
    congr 2
    refine congrArg (fun f => cumcountGo f tail) ?_
    funext k2
    by_cases h : k2 = j
    · simp [h, List.length_cons]
      omega
    · simp [h]

theorem explode_cumcount :
    ∀ (df : List (String × List String)) (j : Nat) (seen : Nat → Nat),
      (∀ k, j ≤ k → seen k = 0) →
      cumcountGo seen (explodeFrom j df) = withIds j df
  | [], _, _, _ => rfl
  | row :: rest, j, seen, hseen => by
    have hj : seen j = 0 := hseen j le_rfl
    rw [explodeFrom, withIds]
    cases hcs : row.2 with
    | nil =>
      rw [List.singleton_append, cumcountGo, hj,
        explode_cumcount rest (j + 1) _ (fun k hk => by
          have : k ≠ j := by omega
          simp only [this, if_false]
          exact hseen k (by omega))]
      rfl
    | cons c cs =>
      rw [cumcount_block, hj,
        explode_cumcount rest (j + 1) _ (fun k hk => by
          have : k ≠ j := by omega
          simp only [this, if_false]
          exact hseen k (by omega))]

theorem withIds_keys_ge :
    ∀ (df : List (String × List String)) (j : Nat), ∀ row ∈ withIds j df, j ≤ row.1
  | [], _, row, hrow => by simp [withIds] at hrow
  | r :: rest, j, row, hrow => by
    rw [withIds, List.mem_append] at hrow
    rcases hrow with h | h
    · revert h
      cases hcs : r.2 with
      | nil =>
        intro h
        rw [List.mem_singleton] at h
        rw [h]
      | cons c cs =>
        intro h
        rw [blockIds_keys j r.1 0 (c :: cs) row h]
    · exact le_of_lt (lt_of_lt_of_le (by omega) (withIds_keys_ge rest (j + 1) row h))

theorem withIds_filter_keys :
    ∀ (df : List (String × List String)) (j i : Nat) (hij : j ≤ i)
      (hi : i - j < df.length),
      (withIds j df).filter (fun row => row.1 == i) =
        (match (df.get ⟨i - j, hi⟩).2 with
         | [] => [(i, (df.get ⟨i - j, hi⟩).1, none, 0)]
         | cs => blockIds i (df.get ⟨i - j, hi⟩).1 0 cs)
  | [], _, _, _, hi => by simp at hi
  | r :: rest, j, i, hij, hi => by
    rw [withIds, List.filter_append]
    by_cases hji : i = j
    · subst hji
      have hidx : i - i = 0 := by omega
      have hblock : ∀ row ∈ (match r.2 with
          | [] => [(i, r.1, none, 0)]
          | cs => blockIds i r.1 0 cs), row.1 = i := by
        cases hcs : r.2 with
        | nil => intro row hrow; rw [List.mem_singleton] at hrow; rw [hrow]
        | cons c cs => exact blockIds_keys i r.1 0 (c :: cs)
      have h1 : (match r.2 with
          | [] => [(i, r.1, none, 0)]
          | cs => blockIds i r.1 0 cs).filter (fun row => row.1 == i) =
          (match r.2 with
          | [] => [(i, r.1, none, 0)]
          | cs => blockIds i r.1 0 cs) := by
        rw [List.filter_eq_self]
        intro row hrow
        simp [hblock row hrow]
      have h2 : (withIds (i + 1) rest).filter (fun row => row.1 == i) = [] := by
        rw [List.filter_eq_nil_iff]
        intro row hrow
        have := withIds_keys_ge rest (i + 1) row hrow
        simp only [beq_iff_eq]
        omega
      rw [h1, h2, List.append_nil]
      cases hcs : r.2 with
      | nil => simp [hidx, List.get, hcs]
      | cons c cs => simp [hidx, List.get, hcs]
    · have hji' : j + 1 ≤ i := by omega
      have h1 : ((match r.2 with
          | [] => [(j, r.1, none, 0)]
          | cs => blockIds j r.1 0 cs : List (Nat × String × Option String × Nat))).filter
          (fun row => row.1 == i) = [] := by
        rw [List.filter_eq_nil_iff]
        intro row hrow
        have hkey : row.1 = j := by
          revert hrow
          cases hcs : r.2 with
          | nil =>
            intro hrow
            rw [List.mem_singleton] at hrow
            rw [hrow]
          | cons c cs => exact blockIds_keys j r.1 0 (c :: cs) row
        simp only [beq_iff_eq, hkey]
        omega
      have hi' : i - (j + 1) < rest.length := by
        simp only [List.length_cons] at hi
        omega
      rw [h1, List.nil_append,
        withIds_filter_keys rest (j + 1) i hji' hi']
      have hgetr : rest.get ⟨i - (j + 1), hi'⟩ = (r :: rest).get ⟨i - j, hi⟩ := by
        have : i - j = (i - (j + 1)) + 1 := by omega
        simp [this, List.get]
      rw [hgetr]

theorem withIds_length :
    ∀ (df : List (String × List String)) (j : Nat), (∀ p ∈ df, p.2 ≠ []) →
      (withIds j df).length = (df.map (fun p => p.2.length)).sum
  | [], _, _ => rfl
  | r :: rest, j, h => by
    rw [withIds, List.length_append, withIds_length rest (j + 1)
      (fun p hp => h p (by simp [hp])), List.map_cons, List.sum_cons]
    congr 1
    cases hcs : r.2 with
    | nil => exact absurd hcs (h r (by simp))
    | cons c cs => rw [blockIds_length]

/-- C1: the claim says any dataset name that is not a year in [2017, 2020] is read
from `{name}.csv`, and the source's own comment agrees, but the code disagrees: for
a name that Python `int()` cannot parse (such as `reviews`), the conversion raises
inside the `try` and the bare `except` turns it into `ValueError("Unknown dataset
reviews")`, so `reviews.csv` is never read even when it exists.  This theorem
evaluates the model at that failing input: the file is present in the filesystem,
yet `prepare_dataset` raises. -/
theorem prepare_dataset_never_reads_non_integer_name :
    fsReviews "data/reviews.csv" = some ["text"] ∧
    prepare_dataset fsReviews "data" "reviews" = .error "Unknown dataset reviews" :=
  ⟨rfl, rfl⟩

/-- C6: whenever the (possibly padded) output tensor's element count is not
divisible by `batch_size * outputs.shape[-1]`, the batch loop aborts at that batch
with a `ValueError` reporting the attempted tensor size and target dimensions; no
further batch is processed and no partial output is returned. -/
theorem reshape_failure_fatal (g : String → List (List Int))
    (decode : List Int → String) (b : Nat) (up : Bool) (ts : List String)
    (rest : List (List String))
    (h1 : b * lastDim (generateBatch g ts) ≠ 0)
    (h2 : numel (padOutputs b up (generateBatch g ts)) %
        (b * lastDim (padOutputs b up (generateBatch g ts))) ≠ 0) :
    runBatches g decode b up (ts :: rest) =
      ([ts], .error ("Cannot reshape tensor of size " ++
        toString (numel (padOutputs b up (generateBatch g ts))) ++ " into shape (" ++
        toString b ++ ", -1, " ++
        toString (lastDim (padOutputs b up (generateBatch g ts))) ++ ").")) := by
  have hpb : processBatch g decode b up ts =
      .error ("Cannot reshape tensor of size " ++
        toString (numel (padOutputs b up (generateBatch g ts))) ++ " into shape (" ++
        toString b ++ ", -1, " ++
        toString (lastDim (padOutputs b up (generateBatch g ts))) ++ ").") := by
    rw [processBatch, if_neg h1, reshapeDecode, if_neg]
    intro hcon
    exact h2 hcon.2
  simp [runBatches, hpb]

/-- Witness for C6 at a concrete partial batch: batch size 2 but a single text with
one generated row of one token, so 1 element cannot be reshaped into (2, -1, 1). -/
theorem reshape_failure_fatal_witness :
    2 * lastDim (generateBatch gW ["a"]) ≠ 0 ∧
    numel (padOutputs 2 false (generateBatch gW ["a"])) %
        (2 * lastDim (padOutputs 2 false (generateBatch gW ["a"]))) ≠ 0 ∧
    runBatches gW decodeW 2 false [["a"]] =
      ([["a"]], .error "Cannot reshape tensor of size 1 into shape (2, -1, 1).") :=
  ⟨by decide, by decide,
    reshape_failure_fatal gW decodeW 2 false ["a"] [] (by decide) (by decide)⟩

/-- C7: whenever `prepare_dataset` fails (unparseable dataset name or unreadable
resolved file), `main` aborts with that `ValueError`, whose message names the
dataset, and no batch is ever sent to model inference (the trace of inference
calls is empty). -/
theorem invalid_dataset_aborts_before_inference (g : String → List (List Int))
    (decode : List Int → String) (fs : String → Option (List String))
    (dataset_path dataset_name : String) (b : Nat) (up : Bool) (lim : Option Nat)
    (m : String)
    (h : prepare_dataset fs dataset_path dataset_name = .error m) :
    mainPipeline g decode fs dataset_path dataset_name b up lim = ([], .error m) ∧
    m = "Unknown dataset " ++ dataset_name := by
  constructor
  · rw [mainPipeline, h]
  · rw [prepare_dataset] at h
    cases hp : pyInt dataset_name with
    | none =>
      simp only [hp, Except.error.injEq] at h
      exact h.symm
    | some y =>
      simp only [hp] at h
      cases hf : fs (dataset_path ++ "/" ++ (if 2017 ≤ y ∧ y < 2021 then
          "all_reviews_" ++ dataset_name ++ ".csv" else dataset_name ++ ".csv")) with
      | some rows =>
        simp only [hf] at h
        exact absurd h (by simp)
      | none =>
        simp only [hf, Except.error.injEq] at h
        exact h.symm

/-- Witness for C7: no file is readable, so loading dataset `foo` fails with the
error naming it, and the pipeline performs zero inference calls. -/
theorem invalid_dataset_aborts_before_inference_witness :
    prepare_dataset fsNone "data" "foo" = .error "Unknown dataset foo" ∧
    mainPipeline gW decodeW fsNone "data" "foo" 2 true none =
      ([], .error "Unknown dataset foo") ∧
    "Unknown dataset foo" = "Unknown dataset " ++ "foo" := by
  refine ⟨rfl, ?_, rfl⟩
  exact (invalid_dataset_aborts_before_inference gW decodeW fsNone "data" "foo" 2
    true none "Unknown dataset foo" rfl).1

/-- C8: the merged `"top_p_sampling"` decoding configuration holds both the preset
keys (`top_p = 0.95`, `num_return_sequences = 8`) and the shared defaults
(`early_stopping = True`, `min_length = 0`). -/
theorem top_p_sampling_merged_config :
    dictGet (configFor "top_p_sampling") "top_p" = some (.num 0.95) ∧
    dictGet (configFor "top_p_sampling") "num_return_sequences" = some (.num 8) ∧
    dictGet (configFor "top_p_sampling") "early_stopping" = some (.bool true) ∧
    dictGet (configFor "top_p_sampling") "min_length" = some (.num 0) :=
  ⟨rfl, rfl, rfl, rfl⟩

/-- C9: `sanitize_model_name` replaces every path-separator character `/` of the
model name (its result never contains one), and in particular maps
`facebook/bart-large-cnn` to `facebook_bart-large-cnn`. -/
theorem sanitize_model_name_replaces_separators :
    sanitize_model_name "facebook/bart-large-cnn" = "facebook_bart-large-cnn" ∧
    ∀ s : String, '/' ∉ (sanitize_model_name s).data := by
  refine ⟨by decide, ?_⟩
  intro s h
  rw [sanitize_model_name] at h
  simp only [String.data] at h
  rcases List.mem_map.1 h with ⟨c, _, heq⟩
  by_cases hcc : c = '/'
  · simp [hcc] at heq
  · simp [hcc] at heq

/-- C10: `argparse` with `type=bool` applies Python `bool()` to the flag's string,
so every non-empty value (including `"False"` and `"0"`) yields `True` and only an
explicit empty string yields `False`; padding therefore cannot be disabled with
`--use_padding False`. -/
theorem argparse_bool_flags :
    argparseBool "False" = true ∧ argparseBool "0" = true ∧
    argparseBool "" = false ∧ ∀ s : String, s ≠ "" → argparseBool s = true := by
  refine ⟨rfl, rfl, rfl, ?_⟩
  intro s hs
  simp [argparseBool, hs]

/-- Witness for C10: a concrete non-empty string parses to `True`. -/
theorem argparse_bool_flags_witness :
    ("x" : String) ≠ "" ∧ argparseBool "x" = true :=
  ⟨by decide, argparse_bool_flags.2.2.2 "x" (by decide)⟩

/-- C2: with `use_padding = True` and a final partial batch of `s = n % b < b`
examples, that batch is not dropped (it is the last batch the loader yields), the
flat output tensor is padded with rows of zeros so that its element count becomes
the next multiple of `batch_size * sequence_length`, and the batch still produces
decoded candidate lists for all `b` slots, padded slots included. -/
theorem final_partial_batch_padded (g : String → List (List Int))
    (decode : List Int → String) (ds : List String) (b r L : Nat)
    (hb : 0 < b) (hpart : ds.length % b ≠ 0)
    (hr : ∀ t, (g t).length = r) (hL : ∀ t, ∀ row ∈ g t, row.length = L)
    (hr0 : 0 < r) (hL0 : 0 < L) :
    (batches b true ds).getLast? = some (ds.drop (b * (ds.length / b))) ∧
    (ds.drop (b * (ds.length / b))).length = ds.length % b ∧
    (∃ k, padOutputs b true (generateBatch g (ds.drop (b * (ds.length / b)))) =
        generateBatch g (ds.drop (b * (ds.length / b))) ++
          List.replicate k (List.replicate L 0)) ∧
    numel (padOutputs b true (generateBatch g (ds.drop (b * (ds.length / b))))) %
      (b * L) = 0 ∧
    numel (generateBatch g (ds.drop (b * (ds.length / b)))) ≤
      numel (padOutputs b true (generateBatch g (ds.drop (b * (ds.length / b))))) ∧
    numel (padOutputs b true (generateBatch g (ds.drop (b * (ds.length / b))))) <
      numel (generateBatch g (ds.drop (b * (ds.length / b)))) + b * L ∧
    ∃ out, processBatch g decode b true (ds.drop (b * (ds.length / b))) = .ok out ∧
      out.length = b := by
  have hlen : (ds.drop (b * (ds.length / b))).length = ds.length % b := by
    rw [List.length_drop]
    have := Nat.div_add_mod ds.length b
    omega
  have hne : ds.drop (b * (ds.length / b)) ≠ [] := by
    rw [← List.length_pos_iff_ne_nil, hlen]
    omega
  have hgl : (batches b true ds).getLast? = some (ds.drop (b * (ds.length / b))) := by
    rw [batches, if_pos rfl]
    exact chunked_getLast (by omega) ds hpart
  obtain ⟨hk, hmod, hle, hlt, hout⟩ :=
    @processBatch_padded g decode b r L (ds.drop (b * (ds.length / b)))
      hb hr hL hr0 hL0 hne
  exact ⟨hgl, hlen, hk, hmod, hle, hlt, hout⟩

/-- Witness for C2: three texts, batch size 2, one generated row of one token per
text, so the final batch has one text and its single-element tensor is padded to
two rows and decoded into candidate lists for both slots. -/
theorem final_partial_batch_padded_witness :
    (batches 2 true ["a", "b", "c"]).getLast? =
        some (["a", "b", "c"].drop (2 * (["a", "b", "c"].length / 2))) ∧
    (["a", "b", "c"].drop (2 * (["a", "b", "c"].length / 2))).length =
        ["a", "b", "c"].length % 2 ∧
    (∃ k, padOutputs 2 true (generateBatch gW
          (["a", "b", "c"].drop (2 * (["a", "b", "c"].length / 2)))) =
        generateBatch gW (["a", "b", "c"].drop (2 * (["a", "b", "c"].length / 2))) ++
          List.replicate k (List.replicate 1 0)) ∧
    numel (padOutputs 2 true (generateBatch gW
        (["a", "b", "c"].drop (2 * (["a", "b", "c"].length / 2))))) % (2 * 1) = 0 ∧
    numel (generateBatch gW (["a", "b", "c"].drop (2 * (["a", "b", "c"].length / 2)))) ≤
      numel (padOutputs 2 true (generateBatch gW
        (["a", "b", "c"].drop (2 * (["a", "b", "c"].length / 2))))) ∧
    numel (padOutputs 2 true (generateBatch gW
        (["a", "b", "c"].drop (2 * (["a", "b", "c"].length / 2))))) <
      numel (generateBatch gW (["a", "b", "c"].drop (2 * (["a", "b", "c"].length / 2)))) +
        2 * 1 ∧
    ∃ out, processBatch gW decodeW 2 true
        (["a", "b", "c"].drop (2 * (["a", "b", "c"].length / 2))) = .ok out ∧
      out.length = 2 :=
  final_partial_batch_padded gW decodeW ["a", "b", "c"] 2 1 1 (by decide) (by decide)
    (fun _ => rfl)
    (fun t row hrow => by
      simp only [gW, List.mem_singleton] at hrow
      simp [hrow])
    (by decide) (by decide)

/-- C4: with `use_padding = False` the loader drops any final partial batch before
inference: the batches sent to the model cover exactly the first `b * ⌊n/b⌋`
examples, and the run emits no summary rows for the dropped examples (indeed the
destructive `summaries.pop(0)` in `dataset.map` exhausts the list and raises
`IndexError`, so the call returns no dataset at all). -/
theorem partial_batch_dropped (g : String → List (List Int))
    (decode : List Int → String) (ds : List String) (b r L : Nat)
    (hb : 0 < b) (hpart : ds.length % b ≠ 0)
    (hr : ∀ t, (g t).length = r) (hL : ∀ t, ∀ row ∈ g t, row.length = L)
    (hr0 : 0 < r) (hL0 : 0 < L) :
    (batches b false ds).flatten = ds.take (b * (ds.length / b)) ∧
    evaluate_summarizer g decode ds b false =
      (batches b false ds, .error "IndexError: pop from empty list") := by
  have hb' : b ≠ 0 := by omega
  have hbf : batches b false ds =
      chunked b (ds.take (b * (ds.length / b))) := by
    rw [batches, if_neg (by simp)]
  have hdm := Nat.div_add_mod ds.length b
  have htlen : (ds.take (b * (ds.length / b))).length = b * (ds.length / b) := by
    rw [List.length_take]
    have hle : b * (ds.length / b) ≤ ds.length := by omega
    omega
  have hdvd : b ∣ (ds.take (b * (ds.length / b))).length := by
    rw [htlen]
    exact Dvd.intro _ rfl
  have hflat : (chunked b (ds.take (b * (ds.length / b)))).flatten =
      ds.take (b * (ds.length / b)) := chunked_flatten hb' _
  refine ⟨by rw [hbf, hflat], ?_⟩
  have hfull := chunked_full_mem hb' (ds.take (b * (ds.length / b))) hdvd
  have hpb : ∀ ts ∈ chunked b (ds.take (b * (ds.length / b))),
      processBatch g decode b false ts =
        .ok (ts.map (fun t => (g t).map decode)) :=
    fun ts hts => processBatch_full (hfull ts hts) hb hr hL hr0 hL0
  have hrun := runBatches_ok hpb
  have hshort : ((ds.take (b * (ds.length / b))).map
      (fun t => (g t).map decode)).length < ds.length := by
    rw [List.length_map, htlen]
    omega
  simp only [evaluate_summarizer, hbf, hrun, hflat]
  rw [popAssign_short ds _ hshort]

/-- Witness for C4: three texts, batch size 2: only the first full batch is
batched for inference and the run aborts with the pop-from-empty `IndexError`. -/
theorem partial_batch_dropped_witness :
    (batches 2 false ["a", "b", "c"]).flatten =
        ["a", "b", "c"].take (2 * (["a", "b", "c"].length / 2)) ∧
    evaluate_summarizer gW decodeW ["a", "b", "c"] 2 false =
      (batches 2 false ["a", "b", "c"], .error "IndexError: pop from empty list") :=
  partial_batch_dropped gW decodeW ["a", "b", "c"] 2 1 1 (by decide) (by decide)
    (fun _ => rfl)
    (fun t row hrow => by
      simp only [gW, List.mem_singleton] at hrow
      simp [hrow])
    (by decide) (by decide)

/-- C5: summaries are appended one candidate list per batch slot in original
dataset row order and consumed destructively from the front once per row in the
same order, so when every batch is complete (`b` divides `n`) the row at dataset
position `i` is assigned exactly the candidate list decoded from row `i`'s text. -/
theorem rows_aligned_with_candidates (g : String → List (List Int))
    (decode : List Int → String) (ds : List String) (b r L : Nat) (up : Bool)
    (hb : 0 < b) (hdvd : b ∣ ds.length)
    (hr : ∀ t, (g t).length = r) (hL : ∀ t, ∀ row ∈ g t, row.length = L)
    (hr0 : 0 < r) (hL0 : 0 < L) :
    evaluate_summarizer g decode ds b up =
      (batches b up ds, .ok (ds.map (fun t => (t, (g t).map decode)))) := by
  have hb' : b ≠ 0 := by omega
  have hbs : batches b up ds = chunked b ds := batches_of_dvd hdvd
  have hfull := chunked_full_mem hb' ds hdvd
  have hpb : ∀ ts ∈ chunked b ds,
      processBatch g decode b up ts = .ok (ts.map (fun t => (g t).map decode)) :=
    fun ts hts => processBatch_full (hfull ts hts) hb hr hL hr0 hL0
  have hrun := runBatches_ok hpb
  simp only [evaluate_summarizer, hbs, hrun, chunked_flatten hb']
  rw [popAssign_map]

/-- Witness for C5: two texts in one full batch of size 2; each row is paired with
the decoded candidates of its own text. -/
theorem rows_aligned_with_candidates_witness :
    evaluate_summarizer gW decodeW ["a", "b"] 2 true =
      (batches 2 true ["a", "b"],
        .ok (["a", "b"].map (fun t => (t, (gW t).map decodeW)))) :=
  rows_aligned_with_candidates gW decodeW ["a", "b"] 2 1 1 true (by decide)
    (by decide) (fun _ => rfl)
    (fun t row hrow => by
      simp only [gW, List.mem_singleton] at hrow
      simp [hrow])
    (by decide) (by decide)

/-- C3 counterexample: the claim predicts that a row with an empty candidate list
contributes zero output rows, but pandas `explode` keeps one row with a missing
summary for an empty list-like, so a one-row dataset with an empty list explodes
to 1 row, not `Σ k_i = 0`. -/
theorem explode_empty_list_counterexample :
    ¬ ((explodeOutput [("t", ([] : List String))]).length =
        ([("t", ([] : List String))].map (fun p => p.2.length)).sum) := by
  decide

/-- C3 (amended): when every row's candidate list is non-empty, exploding yields
exactly `Σ k_i` rows, and the rows derived from row `i` carry `id_candidate`
values `0 .. k_i - 1` in generation order, with the candidates themselves in list
order.  (A row with an empty list instead yields a single row with a missing
summary and `id_candidate = 0`.) -/
theorem explode_counts_and_ids (df : List (String × List String))
    (h : ∀ p ∈ df, p.2 ≠ []) :
    (explodeOutput df).length = (df.map (fun p => p.2.length)).sum ∧
    ∀ i (hi : i < df.length),
      ((explodeOutput df).filter (fun row => row.1 == i)).map
          (fun row => row.2.2.2) = List.range (df.get ⟨i, hi⟩).2.length ∧
      ((explodeOutput df).filter (fun row => row.1 == i)).map
          (fun row => row.2.2.1) = (df.get ⟨i, hi⟩).2.map some := by
  have hw : explodeOutput df = withIds 0 df :=
    explode_cumcount df 0 (fun _ => 0) (fun _ _ => rfl)
  constructor
  · rw [hw]
    exact withIds_length df 0 h
  · intro i hi
    have hfil : (withIds 0 df).filter (fun row => row.1 == i) =
        ((match (df.get ⟨i, hi⟩).2 with
          | [] => [(i, (df.get ⟨i, hi⟩).1, none, 0)]
          | cs => blockIds i (df.get ⟨i, hi⟩).1 0 cs :
            List (Nat × String × Option String × Nat))) :=
      withIds_filter_keys df 0 i (Nat.zero_le i) hi
    rw [hw, hfil]
    cases hcs : (df.get ⟨i, hi⟩).2 with
    | nil => exact absurd hcs (h _ (df.get_mem i hi))
    | cons c cs =>
      constructor
      · rw [blockIds_ids, List.range_eq_range']
      · rw [blockIds_summaries]

/-- Witness for C3 (amended) on a concrete two-row dataset with 2 and 1
candidates: 3 output rows, ids `[0, 1]` and `[0]`. -/
theorem explode_counts_and_ids_witness :
    (explodeOutput [("a", ["x", "y"]), ("b", ["z"])]).length =
        ([("a", ["x", "y"]), ("b", ["z"])].map (fun p => p.2.length)).sum ∧
    ∀ i (hi : i < [("a", ["x", "y"]), ("b", ["z"])].length),
      ((explodeOutput [("a", ["x", "y"]), ("b", ["z"])]).filter
          (fun row => row.1 == i)).map (fun row => row.2.2.2) =
        List.range ([("a", ["x", "y"]), ("b", ["z"])].get ⟨i, hi⟩).2.length ∧
      ((explodeOutput [("a", ["x", "y"]), ("b", ["z"])]).filter
          (fun row => row.1 == i)).map (fun row => row.2.2.1) =
        ([("a", ["x", "y"]), ("b", ["z"])].get ⟨i, hi⟩).2.map some :=
  explode_counts_and_ids [("a", ["x", "y"]), ("b", ["z"])] (by decide)

end Glimpse
